import Mathlib

/-!
Verification development for the PrismDB Agent Orchestration Engine and its
Capability-Scoped Authorization layer, together with the repository's
frontend authentication store.

The orchestration core (`agents/orchestrator.py`, the circuit breaker and
the capability token validator referenced by `ARCHITECTURE.md`) is not part
of the available source tree; those components are modelled from the
specification's own words (each such definition carries a
`Modelled from the spec:` doc comment).  The frontend authentication store
(`prism-framework/agent-ui/src/store/auth-store.ts`) and the route guard
(`prism-framework/agent-ui/src/components/auth/ProtectedRoute.tsx`) are
embedded directly from the TypeScript source.
-/

namespace PrismDB

/-! ## Permission levels -/

/-- Modelled from the spec: `PermissionLevel` (`read|write|admin`), §3
`AccessContext.resourcePermissions`. -/
inductive PermissionLevel where
  | read
  | write
  | admin
deriving DecidableEq, Repr

/-- Numeric rank realising the order `admin > write > read` (§4.1). -/
def PermissionLevel.rank : PermissionLevel → Nat
  | .read => 0
  | .write => 1
  | .admin => 2

/-- `permAtLeast p need` holds when holding `p` suffices for an operation
requiring `need`. -/
def permAtLeast (p need : PermissionLevel) : Bool :=
  need.rank ≤ p.rank

/-- The higher of two permission levels (`admin > write > read`). -/
def permMax (a b : PermissionLevel) : PermissionLevel :=
  if a.rank ≤ b.rank then b else a

/-! ## Capability token claims (§4.1, §6 token format) -/

/-- Modelled from the spec: parsing one permission string of a
`"resourceID::permission"` claim; an unrecognized permission string is
malformed (§4.1). -/
def parsePermission : String → Option PermissionLevel
  | "read" => some .read
  | "write" => some .write
  | "admin" => some .admin
  | _ => none

/-- Splits a character list on every occurrence of the two-character
separator `::`, in the manner of `String.splitOn "::"`. -/
def splitOnColons : List Char → List (List Char)
  | [] => [[]]
  | ':' :: ':' :: rest => [] :: splitOnColons rest
  | c :: rest =>
      match splitOnColons rest with
      | [] => [[c]]
      | p :: ps => (c :: p) :: ps

/-- Modelled from the spec: parsing one claim entry of the shape
`"resourceID::permission"`; any other shape is malformed (§4.1). -/
def parseClaim (s : String) : Option (String × PermissionLevel) :=
  match splitOnColons s.toList with
  | [r, p] => (parsePermission (String.mk p)).map (fun pl => (String.mk r, pl))
  | _ => none

/-- Association-list lookup used for `resourcePermissions: map[resourceID ->
PermissionLevel]` (§3). -/
def lookupPerm : List (String × PermissionLevel) → String → Option PermissionLevel
  | [], _ => none
  | (r', p) :: rest, r => if r' = r then some p else lookupPerm rest r

/-- Modelled from the spec: inserting one resolved claim; on a duplicate
resource entry the highest permission wins (§4.1). -/
def insertPerm : List (String × PermissionLevel) → String → PermissionLevel →
    List (String × PermissionLevel)
  | [], r, p => [(r, p)]
  | (r', q) :: rest, r, p =>
      if r' = r then (r', permMax q p) :: rest else (r', q) :: insertPerm rest r p

/-- Modelled from the spec: resolving a claims array into the per-resource
permission map; fails (`MalformedClaims`) if any entry fails to parse (§4.1). -/
def resolveClaims : List String → Option (List (String × PermissionLevel))
  | [] => some []
  | c :: rest =>
      match parseClaim c, resolveClaims rest with
      | some (r, p), some m => some (insertPerm m r p)
      | _, _ => none

/-- The permissions listed for resource `r` among the well-formed entries of a
claims array, in order of appearance. -/
def claimsFor (cs : List String) (r : String) : List PermissionLevel :=
  cs.filterMap (fun c =>
    match parseClaim c with
    | some (r', p) => if r' = r then some p else none
    | none => none)

/-- The highest permission of a list, or `none` for the empty list. -/
def maxPermList : List PermissionLevel → Option PermissionLevel
  | [] => none
  | p :: rest =>
      match maxPermList rest with
      | none => some p
      | some q => some (permMax p q)

/-! ## Capability token validator (§4.1, §6) -/

/-- Modelled from the spec: token `type (access|refresh)` claim (§6). -/
inductive TokenType where
  | access
  | refresh
deriving DecidableEq, Repr

/-- Modelled from the spec: the signed claims object `sub`, `prisms`, `role`,
`type`, `jti`, `exp`, `iat`, `nbf` plus its signature (§6 token format). -/
structure Token where
  sub : String
  prisms : List String
  role : String
  type : TokenType
  jti : String
  exp : Nat
  iat : Nat
  nbf : Nat
  sig : String
deriving DecidableEq, Repr

/-- Modelled from the spec: the `AuthError` taxonomy (§7). -/
inductive AuthError where
  | ExpiredToken
  | InvalidSignature
  | MalformedClaims
  | PermissionDenied
deriving DecidableEq, Repr

/-- Modelled from the spec: `AccessContext` fields `subjectID`, `role`,
`resourcePermissions`, `issuedAt`, `expiresAt` (§3); constructed only by the
validator. -/
structure AccessContext where
  subjectID : String
  role : String
  resourcePermissions : List (String × PermissionLevel)
  issuedAt : Nat
  expiresAt : Nat
deriving DecidableEq, Repr

/-- Modelled from the spec: stand-in for the signature a correctly signed
token carries under a given verification key (the concrete MAC algorithm is
outside the spec's scope; only match/mismatch matters to the validator). -/
def expectedSig (key : String) (t : Token) : String :=
  key ++ "|" ++ t.sub ++ "|" ++ t.jti

/-- Modelled from the spec: `validate(token) -> AccessContext | AuthError`
(§4.1).  Verifies expiry (`now < expiresAt`, `now >= notBefore`) and the
signature, then parses the claims array; a pure function of the token, the
current time and the verification key. -/
def validate (key : String) (now : Nat) (t : Token) : Except AuthError AccessContext :=
  if t.exp ≤ now then .error .ExpiredToken
  else if now < t.nbf then .error .ExpiredToken
  else if t.sig ≠ expectedSig key t then .error .InvalidSignature
  else
    match resolveClaims t.prisms with
    | none => .error .MalformedClaims
    | some m => .ok ⟨t.sub, t.role, m, t.iat, t.exp⟩

/-- Modelled from the spec: the Orchestrator's token acceptance for an
orchestrated request — the token must validate and must be an access token;
refresh tokens are never accepted directly (§6). -/
def submitRequest (key : String) (now : Nat) (t : Token) : Except AuthError AccessContext :=
  match validate key now t with
  | .error e => .error e
  | .ok ctx => if t.type = TokenType.refresh then .error .PermissionDenied else .ok ctx

/-! ## Circuit breaker (§3 `CircuitBreakerState`, §4.2) -/

/-- Modelled from the spec: breaker `state` (`Closed|Open|HalfOpen`) (§3). -/
inductive BState where
  | Closed
  | Open
  | HalfOpen
deriving DecidableEq, Repr

/-- Modelled from the spec: per-agent `CircuitBreakerState` with
`consecutiveFailures`, `openedAt`, `failureThreshold`, `resetTimeout` (§3);
`trialOutstanding` records that the single `HalfOpen` trial call is in
flight (§4.2: only one trial is admitted at a time). -/
structure Breaker where
  state : BState
  consecutiveFailures : Nat
  openedAt : Nat
  trialOutstanding : Bool
  failureThreshold : Nat
  resetTimeout : Nat
deriving DecidableEq, Repr

/-- A fresh breaker, created at process start per agent name (§3). -/
def mkBreaker (threshold timeout : Nat) : Breaker :=
  ⟨.Closed, 0, 0, false, threshold, timeout⟩

/-- Whether a call is admitted to the wrapped agent or fails fast with
`BreakerOpenError`. -/
inductive CallDecision where
  | admitted
  | rejected
deriving DecidableEq, Repr

/-- Modelled from the spec: the synchronized pre-call transition (§4.2).
`Closed` passes calls through; `Open` fails fast until `resetTimeout` has
elapsed, at which point exactly one trial call is admitted and the breaker
moves to `HalfOpen`; while a `HalfOpen` trial is outstanding every other
call fails fast. -/
def beforeCall (b : Breaker) (now : Nat) : Breaker × CallDecision :=
  match b.state with
  | .Closed => (b, .admitted)
  | .Open =>
      if b.openedAt + b.resetTimeout ≤ now then
        ({ b with state := .HalfOpen, trialOutstanding := true }, .admitted)
      else
        (b, .rejected)
  | .HalfOpen =>
      if b.trialOutstanding then (b, .rejected)
      else ({ b with trialOutstanding := true }, .admitted)

/-- Modelled from the spec: reporting a terminal success to the breaker
(§4.2).  Success in `Closed` resets `consecutiveFailures` to 0; a successful
`HalfOpen` trial returns the breaker to `Closed` with the failure count
reset. -/
def onSuccess (b : Breaker) : Breaker :=
  match b.state with
  | .Closed => { b with consecutiveFailures := 0 }
  | .HalfOpen => { b with state := .Closed, consecutiveFailures := 0, trialOutstanding := false }
  | .Open => b

/-- Modelled from the spec: reporting a terminal failure to the breaker
(§4.2).  `failureThreshold` consecutive failures in `Closed` open the
breaker; a failed `HalfOpen` trial returns to `Open` and resets the timer. -/
def onFailure (b : Breaker) (now : Nat) : Breaker :=
  match b.state with
  | .Closed =>
      if b.failureThreshold ≤ b.consecutiveFailures + 1 then
        { b with state := .Open, consecutiveFailures := b.consecutiveFailures + 1,
                 openedAt := now }
      else
        { b with consecutiveFailures := b.consecutiveFailures + 1 }
  | .HalfOpen =>
      { b with state := .Open, openedAt := now, trialOutstanding := false }
  | .Open => b

/-- `n` consecutive failures reported to the breaker at time `now`. -/
def recordFailures (b : Breaker) (now : Nat) : Nat → Breaker
  | 0 => b
  | n + 1 => onFailure (recordFailures b now n) now

/-! ## Agent adapter and the authorization gate (§4.3, §4.4) -/

/-- Modelled from the spec: the `AgentError` kinds a stage can record,
plus `PermissionDenied` as recorded in a stage's `StageResult` (§7). -/
inductive ErrKind where
  | permissionDenied
  | breakerOpen
  | timeout
  | transientFailure
  | noConsensus
  | cancelled
deriving DecidableEq, Repr, Fintype

/-- Modelled from the spec: a `StageResult` outcome, `Success{payload}` or
`Failure{errorKind}` (§3; `Skipped` never arises in the fragments modelled
here). -/
inductive SOutcome where
  | success (payload : String)
  | failure (e : ErrKind)
deriving DecidableEq, Repr

/-- Modelled from the spec: the operation shape the Orchestrator derives a
required permission from — `read` for Execution of `SELECT`-shaped
statements, `write` for mutating statements (§4.4). -/
inductive OpKind where
  | selectOp
  | mutateOp
deriving DecidableEq, Repr

/-- Modelled from the spec: the permission level an operation requires (§4.4). -/
def requiredPerm : OpKind → PermissionLevel
  | .selectOp => .read
  | .mutateOp => .write

/-- Modelled from the spec: the uniform `AgentRequest` envelope; it may name
a target resource, in which case the authorization gate applies (§3, §4.4). -/
structure AgentRequest where
  agentName : String
  targetResource : Option String
  op : OpKind
  stageInput : String
deriving DecidableEq, Repr

/-- Modelled from the spec: the authorization gate's check of
`accessContext.resourcePermissions[resourceID]` against the operation's
required level; a missing entry grants no access (default-deny, §3). -/
def authorize (ctx : AccessContext) (rid : String) (need : PermissionLevel) : Bool :=
  match lookupPerm ctx.resourcePermissions rid with
  | none => false
  | some p => permAtLeast p need

/-- Result of one adapter invocation attempt: the outcome, whether the
wrapped agent was actually called, and the breaker afterwards. -/
structure InvokeResult where
  outcome : SOutcome
  agentCalled : Bool
  breaker : Breaker
deriving DecidableEq, Repr

/-- Modelled from the spec: `invoke` consults the named circuit breaker
before calling the underlying agent; if the breaker rejects the call it
returns `Failure{BreakerOpen}` immediately without calling the agent, and
every terminal outcome is reported exactly once to the breaker (§4.3; the
bounded retry policy is orthogonal to the properties stated here). -/
def invokeAgent (b : Breaker) (now : Nat) (beh : SOutcome) : InvokeResult :=
  match beforeCall b now with
  | (b', .rejected) => ⟨.failure .breakerOpen, false, b'⟩
  | (b', .admitted) =>
      match beh with
      | .success p => ⟨.success p, true, onSuccess b'⟩
      | .failure e => ⟨.failure e, true, onFailure b' now⟩

/-- Modelled from the spec: the Orchestrator's dispatch of one stage — when
the `AgentRequest` names a target resource the authorization gate runs
first, and a missing or insufficient entry fails the stage immediately with
`PermissionDenied`: no call reaches the Agent Adapter and no breaker state
changes (§4.4). -/
def dispatchStage (ctx : AccessContext) (req : AgentRequest) (b : Breaker) (now : Nat)
    (beh : SOutcome) : InvokeResult :=
  match req.targetResource with
  | some rid =>
      if authorize ctx rid (requiredPerm req.op) then invokeAgent b now beh
      else ⟨.failure .permissionDenied, false, b⟩
  | none => invokeAgent b now beh

/-! ## Route mode (§4.4 mode semantics, aggregation) -/

/-- Modelled from the spec: the fixed linear Route pipeline
NLU → Schema → SQL → Execution → Visualization (§4.4). -/
inductive StageName where
  | nlu
  | schemaStage
  | sqlStage
  | execution
  | visualization
deriving DecidableEq, Repr, Fintype

/-- The Route pipeline order (§4.4). -/
def routeStages : List StageName :=
  [.nlu, .schemaStage, .sqlStage, .execution, .visualization]

/-- Modelled from the spec: in Route mode all stages except Visualization
are required (§7 propagation policy). -/
def isOptionalStage : StageName → Bool
  | .visualization => true
  | _ => false

/-- Modelled from the spec: terminal run statuses (§3 `RunContext.status`;
`Running` never appears in a completed run). -/
inductive RunStatus where
  | Succeeded
  | Failed
  | PartiallyFailed
deriving DecidableEq, Repr

/-- The aggregate of a completed Route run: overall status, the per-stage
trace of attempted stages in order, and the final payload if any (§4.4
aggregation). -/
structure RouteResult where
  status : RunStatus
  attempted : List (StageName × SOutcome)
  payload : Option String
deriving DecidableEq, Repr

/-- Modelled from the spec: the Route pipeline loop — each stage's output
feeds the next stage's input; the pipeline stops at the first `Failure` of a
required stage with status `Failed`, while an optional stage's failure lets
the remaining stages run on the last successful payload and the run end
`PartiallyFailed` (§4.4). -/
def runRouteAux (beh : StageName → String → SOutcome) :
    List StageName → String → Bool → List (StageName × SOutcome) → RouteResult
  | [], payload, optFailed, acc =>
      ⟨if optFailed then .PartiallyFailed else .Succeeded, acc.reverse, some payload⟩
  | s :: rest, payload, optFailed, acc =>
      match beh s payload with
      | .success p => runRouteAux beh rest p optFailed ((s, .success p) :: acc)
      | .failure e =>
          if isOptionalStage s then
            runRouteAux beh rest payload true ((s, .failure e) :: acc)
          else
            ⟨.Failed, ((s, .failure e) :: acc).reverse, none⟩

/-- Modelled from the spec: a complete Route-mode run on a raw query, with
the behaviour of each agent abstracted as a function of the stage and its
input (§4.4). -/
def runRoute (beh : StageName → String → SOutcome) (rawQuery : String) : RouteResult :=
  runRouteAux beh routeStages rawQuery false []

/-! ## Collaborate mode selection (§4.4) -/

/-- Modelled from the spec: one candidate output completing before the
Collaborate deadline, carrying the agent-reported confidence score and its
completion time (§4.4). -/
structure Candidate where
  payload : String
  confidence : ℚ
  finishedAt : Nat
deriving DecidableEq, Repr

/-- Modelled from the spec: the deterministic tie-break on two candidates —
prefer the higher confidence; on an exact tie prefer the one that finished
first (§4.4). -/
def betterCandidate (a b : Candidate) : Candidate :=
  if b.confidence < a.confidence then a
  else if a.confidence < b.confidence then b
  else if a.finishedAt ≤ b.finishedAt then a else b

/-- Modelled from the spec: selection among all candidates that completed
before the deadline; `none` when zero candidates completed (§4.4). -/
def selectCandidate : List Candidate → Option Candidate
  | [] => none
  | c :: rest =>
      match selectCandidate rest with
      | none => some c
      | some d => some (betterCandidate c d)

/-- Modelled from the spec: the Collaborate-mode SQL-generation stage fails
with `NoConsensus` when zero candidates completed before the deadline, and
otherwise succeeds with the selected candidate's payload (§4.4). -/
def collaborateStage (cs : List Candidate) : SOutcome :=
  match selectCandidate cs with
  | none => .failure .noConsensus
  | some c => .success c.payload

/-- The claim's characterisation of a best candidate: a member of the
completed set with maximal confidence that finished no later than any other
candidate of equal confidence. -/
def isBestCandidate (cs : List Candidate) (c : Candidate) : Prop :=
  c ∈ cs ∧ (∀ d ∈ cs, d.confidence ≤ c.confidence) ∧
    (∀ d ∈ cs, d.confidence = c.confidence → c.finishedAt ≤ d.finishedAt)

/-! ## Frontend authentication store
(`prism-framework/agent-ui/src/store/auth-store.ts`) -/

/-- The `User` type of the auth store: `id`, `username`, `email`. -/
structure AuthUser where
  id : String
  username : String
  email : String
deriving DecidableEq, Repr

/-- One entry of the hard-coded `DEMO_USERS` list (a `User` plus the
`password` field). -/
structure DemoUser where
  id : String
  username : String
  email : String
  password : String
deriving DecidableEq, Repr

/-- The hard-coded `DEMO_USERS` list of `auth-store.ts`. -/
def DEMO_USERS : List DemoUser :=
  [⟨"1", "admin", "admin@prismdb.io", "admin123"⟩,
   ⟨"2", "Shahil", "shahil@prismdb.io", "shahil123"⟩]

/-- The mutable fields of the zustand store: `user` and `isAuthenticated`. -/
structure AuthState where
  user : Option AuthUser
  isAuthenticated : Bool
deriving DecidableEq, Repr

/-- The store's initial state: `user: null`, `isAuthenticated: false`. -/
def initialAuthState : AuthState := ⟨none, false⟩

/-- `login`: finds a `DEMO_USERS` entry matching both username and password;
on a match it sets `isAuthenticated: true` and `user` to the entry's `id`,
`username`, `email` and resolves `true`; otherwise it resolves `false` and
leaves the state untouched. -/
def login (s : AuthState) (username password : String) : AuthState × Bool :=
  match DEMO_USERS.find? (fun u => u.username = username && u.password = password) with
  | some u => (⟨some ⟨u.id, u.username, u.email⟩, true⟩, true)
  | none => (s, false)

/-- `register`: refuses when the username or email already exists in
`DEMO_USERS`; otherwise simulates success, setting `isAuthenticated: true`
and a fresh `user`. -/
def authRegister (s : AuthState) (username email _password : String) : AuthState × Bool :=
  if DEMO_USERS.any (fun u => u.username = username || u.email = email) then
    (s, false)
  else
    (⟨some ⟨toString (DEMO_USERS.length + 1), username, email⟩, true⟩, true)

/-- `logout`: sets `isAuthenticated: false`, `user: null`. -/
def logout (_s : AuthState) : AuthState := ⟨none, false⟩

/-- The auth-store invariant: `isAuthenticated` is `true` exactly when
`user` is non-null. -/
def authInv (s : AuthState) : Prop :=
  s.isAuthenticated = true ↔ s.user ≠ none

/-! ## Route guard
(`prism-framework/agent-ui/src/components/auth/ProtectedRoute.tsx`) -/

/-- The `publicRoutes` list of `ProtectedRoute.tsx`. -/
def publicRoutes : List String := ["/auth/login", "/auth/register"]

/-- What `ProtectedRoute` renders. -/
inductive Rendered where
  | nothing
  | children
deriving DecidableEq, Repr

/-- The render logic of `ProtectedRoute`: when not authenticated and the
pathname is not a public route it returns `null`; otherwise it renders the
children (the `useEffect` redirects are side effects and do not change what
is rendered on this pass). -/
def protectedRoute (isAuthenticated : Bool) (pathname : String) : Rendered :=
  if ¬isAuthenticated ∧ ¬(publicRoutes.contains pathname) then .nothing
  else .children

/-- Modelled from the spec: the agent behaviour of the §8 scenario in which
the Execution stage fails while every other stage succeeds on its input. -/
def execFailBehaviour : StageName → String → SOutcome :=
  fun s p => if s = StageName.execution then .failure .timeout else .success p

/-- Modelled from the spec: the agent behaviour of the §8 scenario in which
only the optional Visualization stage fails. -/
def visFailBehaviour : StageName → String → SOutcome :=
  fun s p => if s = StageName.visualization then .failure .timeout else .success p

/-! ## Helper lemmas -/

theorem permMax_comm (a b : PermissionLevel) : permMax a b = permMax b a := by
  cases a <;> cases b <;> rfl

theorem rank_le_permMax_left (a b : PermissionLevel) : a.rank ≤ (permMax a b).rank := by
  cases a <;> cases b <;> simp [permMax, PermissionLevel.rank]

theorem rank_le_permMax_right (a b : PermissionLevel) : b.rank ≤ (permMax a b).rank := by
  cases a <;> cases b <;> simp [permMax, PermissionLevel.rank]

theorem permMax_eq_or (a b : PermissionLevel) : permMax a b = a ∨ permMax a b = b := by
  unfold permMax
  split
  · exact Or.inr rfl
  · exact Or.inl rfl

theorem lookupPerm_insertPerm (m : List (String × PermissionLevel)) (r₀ : String)
    (p₀ : PermissionLevel) (r : String) :
    lookupPerm (insertPerm m r₀ p₀) r =
      if r₀ = r then
        (match lookupPerm m r with
         | none => some p₀
         | some q => some (permMax q p₀))
      else lookupPerm m r := by
  induction m with
  | nil =>
      by_cases h : r₀ = r <;> simp [insertPerm, lookupPerm, h]
  | cons hd tl ih =>
      obtain ⟨r', q⟩ := hd
      by_cases h1 : r' = r₀
      · subst h1
        by_cases h2 : r' = r
        · subst h2
          simp [insertPerm, lookupPerm]
        · simp [insertPerm, lookupPerm, h2]
      · by_cases h2 : r' = r
        · subst h2
          have hne : ¬r₀ = r' := fun h => h1 h.symm
          simp [insertPerm, lookupPerm, h1, hne]
        · simp [insertPerm, lookupPerm, h1, h2, ih]

theorem lookupPerm_resolveClaims (cs : List String) (m : List (String × PermissionLevel))
    (r : String) (h : resolveClaims cs = some m) :
    lookupPerm m r = maxPermList (claimsFor cs r) := by
  induction cs generalizing m with
  | nil =>
      simp [resolveClaims] at h
      subst h
      simp [lookupPerm, claimsFor, maxPermList]
  | cons c rest ih =>
      simp only [resolveClaims] at h
      cases hc : parseClaim c with
      | none => rw [hc] at h; exact absurd h (by simp)
      | some rp =>
          obtain ⟨r₀, p₀⟩ := rp
          rw [hc] at h
          cases hm : resolveClaims rest with
          | none => rw [hm] at h; exact absurd h (by simp)
          | some m' =>
              rw [hm] at h
              simp only [Option.some.injEq] at h
              subst h
              rw [lookupPerm_insertPerm]
              have hrec := ih m' hm
              by_cases hr : r₀ = r
              · subst hr
                simp only [if_pos rfl, claimsFor, List.filterMap_cons, hc, if_pos rfl]
                rw [hrec]
                simp only [claimsFor] at hrec ⊢
                cases hmax : maxPermList (List.filterMap _ rest) with
                | none => simp [maxPermList, hmax]
                | some q => simp [maxPermList, hmax, permMax_comm]
              · simp only [if_neg hr, claimsFor, List.filterMap_cons, hc, if_neg hr]
                exact hrec

theorem maxPermList_mem (l : List PermissionLevel) (q : PermissionLevel)
    (h : maxPermList l = some q) : q ∈ l := by
  induction l generalizing q with
  | nil => simp [maxPermList] at h
  | cons p rest ih =>
      simp only [maxPermList] at h
      cases hm : maxPermList rest with
      | none => rw [hm] at h; simp at h; subst h; exact List.mem_cons_self _ _
      | some q' =>
          rw [hm] at h
          simp only [Option.some.injEq] at h
          subst h
          rcases permMax_eq_or p q' with he | he

          · rw [he]; exact List.mem_cons_self _ _
          · rw [he]; exact List.mem_cons_of_mem _ (ih q' hm)

theorem maxPermList_eq_none (l : List PermissionLevel) : maxPermList l = none ↔ l = [] := by
  cases l with
  | nil => simp [maxPermList]
  | cons a b =>
      simp only [maxPermList]
      cases maxPermList b <;> simp

theorem maxPermList_ge (l : List PermissionLevel) (q : PermissionLevel)
    (h : maxPermList l = some q) : ∀ p ∈ l, p.rank ≤ q.rank := by
  induction l generalizing q with
  | nil => simp
  | cons p0 rest ih =>
      simp only [maxPermList] at h
      cases hm : maxPermList rest with
      | none =>
          rw [hm] at h
          simp only [Option.some.injEq] at h
          subst h
          intro p hp
          rcases List.mem_cons.mp hp with rfl | hp'
          · exact le_refl _
          · rw [(maxPermList_eq_none rest).mp hm] at hp'
            simp at hp'
      | some q' =>
          rw [hm] at h
          simp only [Option.some.injEq] at h
          subst h
          intro p hp
          rcases List.mem_cons.mp hp with rfl | hp'
          · exact rank_le_permMax_left _ _
          · exact le_trans (ih q' hm p hp') (rank_le_permMax_right _ _)

/-! ## Claim theorems -/

/-- C5: when the token validator resolves a claims array, the permission
recorded for a resource is the highest permission listed for that resource
in the array's well-formed `"resourceID::permission"` entries, under the
order `admin > write > read`; in particular a list containing both
`"db1::read"` and `"db1::write"` resolves `db1` to `write`. -/
theorem claims_highest_permission_wins (cs : List String)
    (m : List (String × PermissionLevel)) (r : String) (q : PermissionLevel)
    (hres : resolveClaims cs = some m) (hlook : lookupPerm m r = some q) :
    q ∈ claimsFor cs r ∧ ∀ p ∈ claimsFor cs r, p.rank ≤ q.rank := by
  rw [lookupPerm_resolveClaims cs m r hres] at hlook
  exact ⟨maxPermList_mem _ _ hlook, maxPermList_ge _ _ hlook⟩

/-- C5 witness: `["db1::read", "db1::write"]` resolves and `db1` maps to
`write`, the highest listed permission. -/
theorem claims_highest_permission_wins_witness :
    PermissionLevel.write ∈ claimsFor ["db1::read", "db1::write"] "db1" ∧
      ∀ p ∈ claimsFor ["db1::read", "db1::write"] "db1",
        p.rank ≤ PermissionLevel.write.rank :=
  claims_highest_permission_wins ["db1::read", "db1::write"]
    [("db1", PermissionLevel.write)] "db1" PermissionLevel.write (by decide) (by decide)

/-- C6: for every token whose `exp` timestamp has passed at validation time,
`validate` returns the `ExpiredToken` error, so no `AccessContext` is
produced; `validate` is by construction a pure function of the verification
key, the current time and the token. -/
theorem validate_expired_token (key : String) (now : Nat) (t : Token)
    (h : t.exp ≤ now) :
    validate key now t = .error .ExpiredToken := by
  simp [validate, h]

/-- C6 witness: a token with `exp = 5` validated at time `10` yields
`ExpiredToken`. -/
theorem validate_expired_token_witness :
    validate "key" 10 ⟨"alice", ["db1::read"], "analyst", .access, "jti1", 5, 1, 0, "sig"⟩ =
      .error .ExpiredToken :=
  validate_expired_token "key" 10
    ⟨"alice", ["db1::read"], "analyst", .access, "jti1", 5, 1, 0, "sig"⟩ (by decide)

/-- C7: the Orchestrator never accepts a refresh token directly for an
orchestrated request: for every token of type `refresh`, `submitRequest`
yields an error, never an `AccessContext`. -/
theorem refresh_token_never_accepted (key : String) (now : Nat) (t : Token)
    (h : t.type = TokenType.refresh) :
    ∃ e, submitRequest key now t = .error e := by
  unfold submitRequest
  cases hv : validate key now t with
  | error e => exact ⟨e, rfl⟩
  | ok ctx => exact ⟨.PermissionDenied, by simp [h]⟩

/-- C7 witness: a concrete refresh token is rejected by `submitRequest`. -/
theorem refresh_token_never_accepted_witness :
    ∃ e, submitRequest "key" 10
        ⟨"alice", ["db1::read"], "analyst", .refresh, "jti1", 99, 1, 0, "sig"⟩ = .error e :=
  refresh_token_never_accepted "key" 10
    ⟨"alice", ["db1::read"], "analyst", .refresh, "jti1", 99, 1, 0, "sig"⟩ rfl

/-- C1: for every stage whose `AgentRequest` names a target resource, if the
request's `AccessContext` has no entry for that resource or an entry below
the operation's required permission level, the Orchestrator fails the stage
immediately with `PermissionDenied`, no call reaches the Agent Adapter
(`agentCalled = false`), and the circuit breaker is unchanged
(default-deny). -/
theorem permission_gate_default_deny (ctx : AccessContext) (req : AgentRequest)
    (b : Breaker) (now : Nat) (beh : SOutcome) (rid : String)
    (hres : req.targetResource = some rid)
    (hperm : lookupPerm ctx.resourcePermissions rid = none ∨
      ∃ p, lookupPerm ctx.resourcePermissions rid = some p ∧
        p.rank < (requiredPerm req.op).rank) :
    dispatchStage ctx req b now beh =
      ⟨.failure .permissionDenied, false, b⟩ := by
  have hauth : authorize ctx rid (requiredPerm req.op) = false := by
    rcases hperm with hnone | ⟨p, hp, hlt⟩
    · simp [authorize, hnone]
    · have : ¬(requiredPerm req.op).rank ≤ p.rank := by omega
      simp [authorize, hp, permAtLeast, this]
  simp [dispatchStage, hres, hauth]

/-- C1 witness: a stage requiring `write` on `db2` fails with
`PermissionDenied` when the `AccessContext` only grants `read` on `db2`; the
adapter is not called and the breaker is unchanged. -/
theorem permission_gate_default_deny_witness :
    dispatchStage ⟨"alice", "analyst", [("db2", PermissionLevel.read)], 1, 99⟩
        ⟨"ExecutionAgent", some "db2", .mutateOp, "update stmt"⟩
        (mkBreaker 3 5) 10 (.success "ok") =
      ⟨.failure .permissionDenied, false, mkBreaker 3 5⟩ :=
  permission_gate_default_deny ⟨"alice", "analyst", [("db2", PermissionLevel.read)], 1, 99⟩
    ⟨"ExecutionAgent", some "db2", .mutateOp, "update stmt"⟩
    (mkBreaker 3 5) 10 (.success "ok") "db2" rfl
    (Or.inr ⟨PermissionLevel.read, by decide, by decide⟩)

theorem recordFailures_below_threshold (b : Breaker) (now : Nat) (n : Nat)
    (hb : b.state = .Closed) (h : b.consecutiveFailures + n < b.failureThreshold) :
    (recordFailures b now n).state = .Closed ∧
      (recordFailures b now n).consecutiveFailures = b.consecutiveFailures + n ∧
      (recordFailures b now n).failureThreshold = b.failureThreshold := by
  induction n with
  | zero => exact ⟨hb, rfl, rfl⟩
  | succ k ih =>
      have hk : b.consecutiveFailures + k < b.failureThreshold := by omega
      obtain ⟨hs, hc, ht⟩ := ih hk
      have hcond : ¬b.failureThreshold ≤ b.consecutiveFailures + k + 1 := by omega
      refine ⟨?_, ?_, ?_⟩ <;>
        simp [recordFailures, onFailure, hs, hc, ht, hcond]
      omega

theorem selectCandidate_eq_none (cs : List Candidate) :
    selectCandidate cs = none ↔ cs = [] := by
  cases cs with
  | nil => simp [selectCandidate]
  | cons c rest =>
      simp only [selectCandidate]
      cases selectCandidate rest <;> simp

theorem selectCandidate_best (cs : List Candidate) (c : Candidate)
    (h : selectCandidate cs = some c) : isBestCandidate cs c := by
  induction cs generalizing c with
  | nil => simp [selectCandidate] at h
  | cons c₀ rest ih =>
      simp only [selectCandidate] at h
      cases hr : selectCandidate rest with
      | none =>
          rw [hr] at h
          simp only [Option.some.injEq] at h
          subst h
          rw [(selectCandidate_eq_none rest).mp hr]
          refine ⟨List.mem_singleton.mpr rfl, ?_, ?_⟩ <;> intro d hd <;>
            rw [List.mem_singleton.mp hd]
          · exact fun _ => le_refl _
      | some d =>
          rw [hr] at h
          simp only [Option.some.injEq] at h
          subst h
          obtain ⟨hdmem, hdconf, hdfin⟩ := ih d hr
          unfold betterCandidate
          split
          · -- d.confidence < c₀.confidence: the head wins outright
            rename_i hlt
            refine ⟨List.mem_cons_self _ _, ?_, ?_⟩
            · intro x hx
              rcases List.mem_cons.mp hx with rfl | hx'
              · exact le_refl _
              · exact le_of_lt (lt_of_le_of_lt (hdconf x hx') hlt)
            · intro x hx hconf
              rcases List.mem_cons.mp hx with rfl | hx'
              · exact le_refl _
              · exact absurd hconf (ne_of_lt (lt_of_le_of_lt (hdconf x hx') hlt))
          · split
            · -- c₀.confidence < d.confidence: the recursive winner stands
              rename_i hlt
              refine ⟨List.mem_cons_of_mem _ hdmem, ?_, ?_⟩
              · intro x hx
                rcases List.mem_cons.mp hx with rfl | hx'
                · exact le_of_lt hlt
                · exact hdconf x hx'
              · intro x hx hconf
                rcases List.mem_cons.mp hx with rfl | hx'
                · exact absurd hconf (ne_of_lt hlt)
                · exact hdfin x hx' hconf
            · -- exact confidence tie: earlier finish wins
              rename_i hnlt1 hnlt2
              have heq : c₀.confidence = d.confidence := le_antisymm
                (le_of_not_lt hnlt1) (le_of_not_lt hnlt2)
              split
              · rename_i hfin
                refine ⟨List.mem_cons_self _ _, ?_, ?_⟩
                · intro x hx
                  rcases List.mem_cons.mp hx with rfl | hx'
                  · exact le_refl _
                  · exact le_of_le_of_eq (hdconf x hx') heq.symm
                · intro x hx hconf
                  rcases List.mem_cons.mp hx with rfl | hx'
                  · exact le_refl _
                  · exact le_trans hfin (hdfin x hx' (hconf.trans heq))
              · rename_i hfin
                refine ⟨List.mem_cons_of_mem _ hdmem, ?_, ?_⟩
                · intro x hx
                  rcases List.mem_cons.mp hx with rfl | hx'
                  · exact le_of_eq heq
                  · exact hdconf x hx'
                · intro x hx hconf
                  rcases List.mem_cons.mp hx with rfl | hx'
                  · exact le_of_lt (lt_of_not_le hfin)
                  · exact hdfin x hx' hconf

/-- C4: among the Collaborate-mode candidates that completed before the
deadline, the selected candidate is one of the completed candidates, has the
highest agent-reported confidence, and finished no later than any other
candidate of equal confidence; zero completed candidates fail the stage with
`NoConsensus`; a non-empty completed set always yields a selection; and the
selection is deterministic given the completed set — any two candidates
satisfying the preference are equal whenever completion times are distinct. -/
theorem collaborate_selection_rule :
    (collaborateStage [] = .failure .noConsensus) ∧
    (∀ cs c, selectCandidate cs = some c →
      isBestCandidate cs c ∧ collaborateStage cs = .success c.payload) ∧
    (∀ cs, cs ≠ [] → ∃ c, selectCandidate cs = some c) ∧
    (∀ cs c c', (∀ a ∈ cs, ∀ b ∈ cs, a.finishedAt = b.finishedAt → a = b) →
      isBestCandidate cs c → isBestCandidate cs c' → c = c') := by
  refine ⟨rfl, ?_, ?_, ?_⟩
  · intro cs c h
    exact ⟨selectCandidate_best cs c h, by simp [collaborateStage, h]⟩
  · intro cs hne
    cases hr : selectCandidate cs with
    | none => exact absurd ((selectCandidate_eq_none cs).mp hr) hne
    | some c => exact ⟨c, rfl⟩
  · intro cs c c' hinj hc hc'
    obtain ⟨hm, hconf, hfin⟩ := hc
    obtain ⟨hm', hconf', hfin'⟩ := hc'
    have heq : c.confidence = c'.confidence :=
      le_antisymm (hconf' c hm) (hconf c' hm')
    have hf1 : c.finishedAt ≤ c'.finishedAt := hfin c' hm' heq.symm
    have hf2 : c'.finishedAt ≤ c.finishedAt := hfin' c hm heq
    exact hinj c hm c' hm' (le_antisymm hf1 hf2)

/-- C4 witness: with candidates of confidence 0.9 and 0.95 the 0.95
candidate is selected; with a tie (0.9 and 0.9) the candidate that completed
first is selected, and it is the unique best candidate. -/
theorem collaborate_selection_rule_witness :
    (isBestCandidate [⟨"a", mkRat 9 10, 5⟩, ⟨"b", mkRat 19 20, 7⟩] ⟨"b", mkRat 19 20, 7⟩ ∧
      collaborateStage [⟨"a", mkRat 9 10, 5⟩, ⟨"b", mkRat 19 20, 7⟩] = .success "b") ∧
    (isBestCandidate [⟨"x", mkRat 9 10, 5⟩, ⟨"y", mkRat 9 10, 7⟩] ⟨"x", mkRat 9 10, 5⟩ ∧
      collaborateStage [⟨"x", mkRat 9 10, 5⟩, ⟨"y", mkRat 9 10, 7⟩] = .success "x") :=
  ⟨collaborate_selection_rule.2.1 [⟨"a", mkRat 9 10, 5⟩, ⟨"b", mkRat 19 20, 7⟩]
      ⟨"b", mkRat 19 20, 7⟩ (by decide),
   collaborate_selection_rule.2.1 [⟨"x", mkRat 9 10, 5⟩, ⟨"y", mkRat 9 10, 7⟩]
      ⟨"x", mkRat 9 10, 5⟩ (by decide)⟩

/-- C2: (1) a breaker that records `failureThreshold` consecutive failures
in the `Closed` state transitions to `Open`; (2) a call made while `Open`
before `resetTimeout` has elapsed never invokes the wrapped agent and fails
fast with `BreakerOpenError`, leaving the breaker unchanged; (3) once
`resetTimeout` has elapsed, exactly one trial call is admitted into
`HalfOpen` at a time — the admitted trial moves the breaker to `HalfOpen`
and any further call while that trial is outstanding is rejected. -/
theorem breaker_state_machine :
    (∀ thr timeout now, 0 < thr →
      (recordFailures (mkBreaker thr timeout) now thr).state = .Open) ∧
    (∀ b now beh, b.state = .Open → now < b.openedAt + b.resetTimeout →
      invokeAgent b now beh = ⟨.failure .breakerOpen, false, b⟩) ∧
    (∀ b now, b.state = .Open → b.openedAt + b.resetTimeout ≤ now →
      (beforeCall b now).2 = .admitted ∧ (beforeCall b now).1.state = .HalfOpen ∧
        ∀ now2, beforeCall (beforeCall b now).1 now2 =
          ((beforeCall b now).1, .rejected)) := by
  refine ⟨?_, ?_, ?_⟩
  · intro thr timeout now hthr
    obtain ⟨k, hk⟩ : ∃ k, thr = k + 1 := ⟨thr - 1, by omega⟩
    subst hk
    have hbelow := recordFailures_below_threshold (mkBreaker (k + 1) timeout) now k
      rfl (by simp [mkBreaker])
    obtain ⟨hs, hc, ht⟩ := hbelow
    have hnow : (recordFailures (mkBreaker (k + 1) timeout) now k).failureThreshold ≤
        (recordFailures (mkBreaker (k + 1) timeout) now k).consecutiveFailures + 1 := by
      rw [hc, ht]; simp [mkBreaker]
    simp [recordFailures, onFailure, hs, hnow]
  · intro b now beh hopen hnot
    have hrej : ¬b.openedAt + b.resetTimeout ≤ now := by omega
    simp [invokeAgent, beforeCall, hopen, hrej]
  · intro b now hopen helapsed
    simp [beforeCall, hopen, helapsed]

/-- C2 witness: with `failureThreshold = 3` and `resetTimeout = 5`, three
consecutive failures open the breaker; while still `Open` a call fails fast
with `BreakerOpenError` without invoking the agent; after the timeout the
single admitted trial moves the breaker to `HalfOpen` and a second call is
rejected. -/
theorem breaker_state_machine_witness :
    (recordFailures (mkBreaker 3 5) 10 3).state = .Open ∧
      invokeAgent (recordFailures (mkBreaker 3 5) 10 3) 12 (.success "ok") =
        ⟨.failure .breakerOpen, false, recordFailures (mkBreaker 3 5) 10 3⟩ ∧
      (beforeCall (recordFailures (mkBreaker 3 5) 10 3) 20).2 = .admitted ∧
      (beforeCall (beforeCall (recordFailures (mkBreaker 3 5) 10 3) 20).1 21).2 =
        .rejected := by
  obtain ⟨h1, h2, h3⟩ := breaker_state_machine
  refine ⟨h1 3 5 10 (by decide), ?_, ?_, ?_⟩
  · exact h2 (recordFailures (mkBreaker 3 5) 10 3) 12 (.success "ok") (by decide) (by decide)
  · exact (h3 (recordFailures (mkBreaker 3 5) 10 3) 20 (by decide) (by decide)).1
  · have := (h3 (recordFailures (mkBreaker 3 5) 10 3) 20 (by decide) (by decide)).2.2 21
    rw [this]

/-- C3: for every completed Route-mode run, the aggregated status is
`Failed` exactly when some required (non-optional) stage failed, and then
the failing required stage is the last stage attempted (no later stage, in
particular Visualization, is attempted); if failures occurred but only in
optional stages the status is `PartiallyFailed` and the primary payload is
still present; and a `Succeeded` status requires every non-optional stage of
the pipeline to have produced a `Success`. -/
theorem route_aggregation (beh : StageName → String → SOutcome) (q : String) :
    ((runRoute beh q).status = .Failed ↔
      ∃ s e, (s, SOutcome.failure e) ∈ (runRoute beh q).attempted ∧
        isOptionalStage s = false) ∧
    ((runRoute beh q).status = .Failed →
      ∃ s e, (runRoute beh q).attempted.getLast? = some (s, SOutcome.failure e) ∧
        isOptionalStage s = false) ∧
    ((∃ s e, (s, SOutcome.failure e) ∈ (runRoute beh q).attempted) →
      (∀ s e, (s, SOutcome.failure e) ∈ (runRoute beh q).attempted →
        isOptionalStage s = true) →
      (runRoute beh q).status = .PartiallyFailed ∧
        ((runRoute beh q).payload).isSome = true) ∧
    ((runRoute beh q).status = .Succeeded →
      ∀ s ∈ routeStages, isOptionalStage s = false →
        ∃ p, (s, SOutcome.success p) ∈ (runRoute beh q).attempted) := by
  cases h1 : beh .nlu q with
  | failure e1 =>
      simp [runRoute, routeStages, runRouteAux, isOptionalStage, h1]
  | success p1 =>
  cases h2 : beh .schemaStage p1 with
  | failure e2 =>
      simp [runRoute, routeStages, runRouteAux, isOptionalStage, h1, h2]
  | success p2 =>
  cases h3 : beh .sqlStage p2 with
  | failure e3 =>
      simp [runRoute, routeStages, runRouteAux, isOptionalStage, h1, h2, h3]
  | success p3 =>
  cases h4 : beh .execution p3 with
  | failure e4 =>
      simp [runRoute, routeStages, runRouteAux, isOptionalStage, h1, h2, h3, h4]
  | success p4 =>
  cases h5 : beh .visualization p4 with
  | failure e5 =>
      simp [runRoute, routeStages, runRouteAux, isOptionalStage, h1, h2, h3, h4, h5]
  | success p5 =>
      simp [runRoute, routeStages, runRouteAux, isOptionalStage, h1, h2, h3, h4, h5]

/-- C3 witness: when the required Execution stage fails the run is `Failed`
and the failing stage is the last one attempted (Visualization is never
reached); when only the optional Visualization stage fails the run is
`PartiallyFailed` with the primary payload present. -/
theorem route_aggregation_witness :
    (∃ s e, (runRoute execFailBehaviour "q").attempted.getLast? =
        some (s, SOutcome.failure e) ∧ isOptionalStage s = false) ∧
    ((runRoute visFailBehaviour "q").status = .PartiallyFailed ∧
      ((runRoute visFailBehaviour "q").payload).isSome = true) :=
  ⟨(route_aggregation execFailBehaviour "q").2.1 (by decide),
   (route_aggregation visFailBehaviour "q").2.2.1 (by decide) (by decide)⟩

/-- C8: the auth store satisfies the invariant that `isAuthenticated` is
true exactly when `user` is non-null: the initial state is
`(isAuthenticated = false, user = null)` and every store operation
(`login`, `register`, `logout`) preserves the invariant. -/
theorem auth_store_invariant :
    initialAuthState = ⟨none, false⟩ ∧ authInv initialAuthState ∧
    (∀ s u p, authInv s → authInv (login s u p).1) ∧
    (∀ s u e pw, authInv s → authInv (authRegister s u e pw).1) ∧
    (∀ s, authInv (logout s)) := by
  refine ⟨rfl, by simp [authInv, initialAuthState], ?_, ?_, ?_⟩
  · intro s u p hs
    cases h : DEMO_USERS.find? (fun d => d.username = u && d.password = p) with
    | some d => simp [login, h, authInv]
    | none => simpa [login, h] using hs
  · intro s u e pw hs
    unfold authRegister
    split
    · exact hs
    · simp [authInv]
  · intro s
    simp [authInv, logout]

/-- C8 witness: the invariant holds initially, is preserved by a concrete
`login` call, and holds after `logout`. -/
theorem auth_store_invariant_witness :
    authInv (login initialAuthState "admin" "admin123").1 ∧
      authInv (logout initialAuthState) :=
  ⟨auth_store_invariant.2.2.1 initialAuthState "admin" "admin123"
      (by simp [authInv, initialAuthState]),
   auth_store_invariant.2.2.2.2 initialAuthState⟩

/-- C9: `login` resolves `true` exactly when some entry of the hard-coded
`DEMO_USERS` list matches both the username and the password; on a match the
stored user becomes the matching entry's `id`, `username` and `email` with
`isAuthenticated` set; on a failed login the store state is unchanged. -/
theorem login_matches_demo_users (s : AuthState) (u p : String) :
    ((login s u p).2 = true ↔ ∃ d ∈ DEMO_USERS, d.username = u ∧ d.password = p) ∧
    (∀ d ∈ DEMO_USERS, d.username = u → d.password = p →
      (login s u p).1 = ⟨some ⟨d.id, d.username, d.email⟩, true⟩) ∧
    ((login s u p).2 = false → (login s u p).1 = s) := by
  refine ⟨⟨?_, ?_⟩, ?_, ?_⟩
  · intro hl
    cases h : DEMO_USERS.find? (fun d => d.username = u && d.password = p) with
    | none => simp [login, h] at hl
    | some d =>
        have hmem := List.mem_of_find?_eq_some h
        have hpred := List.find?_some h
        simp only [Bool.and_eq_true, decide_eq_true_eq] at hpred
        exact ⟨d, hmem, hpred.1, hpred.2⟩
  · rintro ⟨d, hd, hu, hp⟩
    cases h : DEMO_USERS.find? (fun d => d.username = u && d.password = p) with
    | none =>
        rw [List.find?_eq_none] at h
        have := h d hd
        simp [hu, hp] at this
    | some d' => simp [login, h]
  · intro d hd hu hp
    simp only [DEMO_USERS, List.mem_cons, List.mem_singleton,
      List.not_mem_nil, or_false] at hd
    rcases hd with rfl | rfl <;> subst hu <;> subst hp <;>
      simp [login, DEMO_USERS, List.find?]
  · intro hfalse
    cases h : DEMO_USERS.find? (fun d => d.username = u && d.password = p) with
    | none => simp [login, h]
    | some d => simp [login, h] at hfalse

/-- C9 witness: `admin`/`admin123` logs in to the first demo user, while a
wrong password leaves the initial state unchanged. -/
theorem login_matches_demo_users_witness :
    (login initialAuthState "admin" "admin123").1 =
        ⟨some ⟨"1", "admin", "admin@prismdb.io"⟩, true⟩ ∧
      (login initialAuthState "admin" "wrong").1 = initialAuthState :=
  ⟨(login_matches_demo_users initialAuthState "admin" "admin123").2.1
      ⟨"1", "admin", "admin@prismdb.io", "admin123"⟩ (by decide) rfl rfl,
   (login_matches_demo_users initialAuthState "admin" "wrong").2.2 (by decide)⟩

/-- C10: for every pathname outside the public-route list
`['/auth/login', '/auth/register']`, `ProtectedRoute` renders nothing
whenever `isAuthenticated` is false, so unauthenticated visitors never see
protected content; on a public route the children render regardless of
authentication. -/
theorem protected_route_render (auth : Bool) (path : String) :
    (path ∉ publicRoutes → auth = false → protectedRoute auth path = .nothing) ∧
    (path ∈ publicRoutes → protectedRoute auth path = .children) := by
  constructor
  · intro hpub hauth
    subst hauth
    simp [protectedRoute, List.contains, List.elem_iff, hpub]
  · intro hpub
    simp [protectedRoute, List.contains, List.elem_iff, hpub]

/-- C10 witness: an unauthenticated visitor on `/playground` is shown
nothing, while `/auth/login` renders its children even when
unauthenticated. -/
theorem protected_route_render_witness :
    protectedRoute false "/playground" = .nothing ∧
      protectedRoute false "/auth/login" = .children :=
  ⟨(protected_route_render false "/playground").1 (by decide) rfl,
   (protected_route_render false "/auth/login").2 (by decide)⟩

end PrismDB
